import Mathlib

/-!
Shallow embedding of the optimal-calculus graph runtime
(`src/unnamed/part_001`): tagged-pointer heap, linker, allocator,
collector, the six rewrite rules, the whnf driver `reduce`, the
normalizer `normal`, and the textual-surface builder `read`.

Modelling conventions:
* The JS global heap `MEM : Array<Ptr>` together with the free lists
  `RE0..RE3`, the counter `GAS` and the limit `LIM` form one explicit
  `State` record.  `LIM = Infinity` is `lim = none`.
* JS numbers are `Nat`; every pointer built by the code is a
  non-negative integer, and `ptr & 0xF` / `Math.floor(ptr / 2^k) & 0xFF`
  agree with `% 16` / `/ 2^k % 256` on naturals.
* Reading an out-of-range heap index yields `0` (`NIL`); writing past
  the end extends the array (as JS assignment does), padding with `0`.
* The unbounded recursions (`collect`, `reduce`, `normal`, the parser)
  take explicit fuel and return `none` when it runs out; every
  recursive call consumes one unit.  The debug-only `IS_FREED` table is
  never read by the program and is omitted.
-/

namespace UC

/-- Node tags, from the source constants. -/
def NIL : Nat := 0
def LAM : Nat := 1
def APP : Nat := 2
def PAR : Nat := 3
def DP0 : Nat := 4
def DP1 : Nat := 5
def VAR : Nat := 6
def LNK : Nat := 7
def CTR : Nat := 8
def CAL : Nat := 9

def MUL_A : Nat := 16
def MUL_B : Nat := 4096
def MUL_C : Nat := 1048576

/-- `ptr(tag, pos, ex0, ex1)`. -/
def ptr (tag pos ex0 ex1 : Nat) : Nat :=
  tag + ex0 * MUL_A + ex1 * MUL_B + pos * MUL_C

def get_tag (p : Nat) : Nat := p % 16

def get_ex0 (p : Nat) : Nat := p / MUL_A % 256

def get_ex1 (p : Nat) : Nat := p / MUL_B % 256

def get_pos (p : Nat) : Nat := p / MUL_C

def get_loc (p arg : Nat) : Nat := p / MUL_C + arg

/-- The global mutable state of the runtime. -/
structure State where
  mem : List Nat
  re0 : List Nat
  re1 : List Nat
  re2 : List Nat
  re3 : List Nat
  gas : Nat
  lim : Option Nat
deriving DecidableEq, Repr

def initState : State :=
  { mem := [], re0 := [], re1 := [], re2 := [], re3 := [], gas := 0, lim := none }

/-- `MEM[p]`; an out-of-range read is `0` (`NIL`). -/
def memGet (s : State) (p : Nat) : Nat := s.mem.getD p 0

/-- `MEM[p] = v`; writing past the end extends the array. -/
def memSet (s : State) (p v : Nat) : State :=
  if p < s.mem.length then { s with mem := s.mem.set p v }
  else { s with mem := s.mem ++ List.replicate (p - s.mem.length) 0 ++ [v] }

/-- `MEM.push(v)`. -/
def memPush (s : State) (v : Nat) : State := { s with mem := s.mem ++ [v] }

def get_arg (s : State) (term idx : Nat) : Nat := memGet s (get_loc term idx)

/-- `link(pos, term)`: write and re-establish the binder back-edge. -/
def link (s : State) (pos term : Nat) : State :=
  let s1 := memSet s pos term
  if get_tag term = VAR then memSet s1 (get_loc term 0) (ptr LNK pos 0 0)
  else if get_tag term = DP0 then memSet s1 (get_loc term 0) (ptr LNK pos 0 0)
  else if get_tag term = DP1 then memSet s1 (get_loc term 1) (ptr LNK pos 0 0)
  else s1

/-- The `for` loop in `alloc` pushing `size` zeros. -/
def pushZeros : State → Nat → State
  | s, 0 => s
  | s, Nat.succ k => pushZeros (memPush s 0) k

/-- `alloc(size)`: pop the size bucket, else bump the heap tail
(`size = 0` falls back to position `0`). -/
def alloc (s : State) (size : Nat) : Nat × State :=
  match size with
  | 0 =>
    match s.re0 with
    | p :: rest => (p, { s with re0 := rest })
    | [] => (0, s)
  | 1 =>
    match s.re1 with
    | p :: rest => (p, { s with re1 := rest })
    | [] => (s.mem.length, pushZeros s 1)
  | 2 =>
    match s.re2 with
    | p :: rest => (p, { s with re2 := rest })
    | [] => (s.mem.length, pushZeros s 2)
  | 3 =>
    match s.re3 with
    | p :: rest => (p, { s with re3 := rest })
    | [] => (s.mem.length, pushZeros s 3)
  | n => (s.mem.length, pushZeros s n)

/-- The zeroing loop of `free`. -/
def zeroCells : State → Nat → Nat → State
  | s, _, 0 => s
  | s, p, Nat.succ k => zeroCells (memSet s p 0) (p + 1) k

/-- `free(pos, size)`: zero the cells and push `pos` onto the matching
bucket (none exists for `size > 3`). -/
def free (s : State) (pos size : Nat) : State :=
  let s1 := zeroCells s pos size
  match size with
  | 0 => { s1 with re0 := pos :: s1.re0 }
  | 1 => { s1 with re1 := pos :: s1.re1 }
  | 2 => { s1 with re2 := pos :: s1.re2 }
  | 3 => { s1 with re3 := pos :: s1.re3 }
  | _ => s1

mutual

/-- `collect(term, host)`.  JS `if (host)` is false both for `null`
and for the number `0`. -/
def collect : Nat → State → Nat → Option Nat → Option State
  | 0, _, _, _ => none
  | Nat.succ f, s, term, host =>
    if get_tag term = LAM then
      let s1 :=
        if get_tag (get_arg s term 0) ≠ NIL then
          link s (get_loc (get_arg s term 0) 0) (ptr NIL 0 0 0)
        else s
      match collect f s1 (get_arg s1 term 1) (some (get_loc term 1)) with
      | none => none
      | some s2 => some (free s2 (get_loc term 0) 2)
    else if get_tag term = APP then
      match collect f s (get_arg s term 0) (some (get_loc term 0)) with
      | none => none
      | some s1 =>
        match collect f s1 (get_arg s1 term 1) (some (get_loc term 1)) with
        | none => none
        | some s2 => some (free s2 (get_loc term 0) 2)
    else if get_tag term = PAR then
      match collect f s (get_arg s term 0) (some (get_loc term 0)) with
      | none => none
      | some s1 =>
        match collect f s1 (get_arg s1 term 1) (some (get_loc term 1)) with
        | none => none
        | some s2 =>
          let s3 := free s2 (get_loc term 0) 2
          some (match host with
                | some h => if h = 0 then s3 else link s3 h (ptr NIL 0 0 0)
                | none => s3)
    else if get_tag term = DP0 then
      let s1 := link s (get_loc term 0) (ptr NIL 0 0 0)
      some (match host with
            | some h => if h = 0 then s1 else free s1 h 1
            | none => s1)
    else if get_tag term = DP1 then
      let s1 := link s (get_loc term 1) (ptr NIL 0 0 0)
      some (match host with
            | some h => if h = 0 then s1 else free s1 h 1
            | none => s1)
    else if get_tag term = CTR ∨ get_tag term = CAL then
      match collectArgs f s term 0 (get_ex0 term) with
      | none => none
      | some s1 => some (free s1 (get_loc term 0) (get_ex0 term))
    else if get_tag term = VAR then
      let s1 := link s (get_loc term 0) (ptr NIL 0 0 0)
      some (match host with
            | some h => if h = 0 then s1 else free s1 h 1
            | none => s1)
    else some s

/-- The `for` loop of `collect` over the `arity` arguments of a
`Ctr`/`Cal` node. -/
def collectArgs : Nat → State → Nat → Nat → Nat → Option State
  | 0, _, _, _, _ => none
  | Nat.succ _, s, _, _, 0 => some s
  | Nat.succ f, s, term, i, Nat.succ k =>
    match collect f s (get_arg s term i) (some (get_loc term i)) with
    | none => none
    | some s1 => collectArgs f s1 term (i + 1) k

end

/-- `subst(lnk, val)`. -/
def subst (f : Nat) (s : State) (lnk val : Nat) : Option State :=
  if get_tag lnk ≠ NIL then some (link s (get_loc lnk 0) val)
  else collect f s val none

/-- `GAS >= LIM` (`LIM = Infinity` when `lim = none`). -/
def gasReached (s : State) : Bool :=
  match s.lim with
  | none => false
  | some l => decide (l ≤ s.gas)

/-- The APP-LAM rewrite body (source lines 763–773), after the gas
check; `++GAS` is included here. -/
def appLamRule (f : Nat) (s : State) (host term func : Nat) : Option State :=
  let s := { s with gas := s.gas + 1 }
  match subst f s (get_arg s func 0) (get_arg s term 1) with
  | none => none
  | some s1 =>
    let s2 := link s1 host (get_arg s1 func 1)
    let s3 := free s2 (get_loc term 0) 2
    some (free s3 (get_loc func 0) 2)

/-- The APP-PAR rewrite body (source lines 778–799). -/
def appParRule (s : State) (host term func : Nat) : State :=
  let s := { s with gas := s.gas + 1 }
  let a0 := alloc s 3
  let let0 := a0.1
  let s := a0.2
  let a1 := alloc s 2
  let app0 := a1.1
  let s := a1.2
  let a2 := alloc s 2
  let app1 := a2.1
  let s := a2.2
  let a3 := alloc s 2
  let par0 := a3.1
  let s := a3.2
  let s := link s (let0 + 2) (get_arg s term 1)
  let s := link s (app0 + 0) (get_arg s func 0)
  let s := link s (app0 + 1) (ptr DP0 let0 (get_ex0 func) 0)
  let s := link s (app1 + 0) (get_arg s func 1)
  let s := link s (app1 + 1) (ptr DP1 let0 (get_ex0 func) 0)
  let s := link s (par0 + 0) (ptr APP app0 0 0)
  let s := link s (par0 + 1) (ptr APP app1 0 0)
  let s := link s host (ptr PAR par0 (get_ex0 func) 0)
  let s := free s (get_loc term 0) 2
  free s (get_loc func 0) 2

/-- The allocation-and-wiring prefix of the LET-LAM rewrite (source
lines 817–825); returns the new state and `(lam0, lam1, par0)`. -/
def letLamPre (s : State) (term expr : Nat) : State × Nat × Nat × Nat :=
  let a0 := alloc s 2
  let lam0 := a0.1
  let s := a0.2
  let a1 := alloc s 2
  let lam1 := a1.1
  let s := a1.2
  let a2 := alloc s 2
  let par0 := a2.1
  let s := a2.2
  let a3 := alloc s 3
  let let0 := a3.1
  let s := a3.2
  let s := link s (lam0 + 1) (ptr DP0 let0 (get_ex0 term) 0)
  let s := link s (lam1 + 1) (ptr DP1 let0 (get_ex0 term) 0)
  let s := link s (par0 + 0) (ptr VAR lam0 0 0)
  let s := link s (par0 + 1) (ptr VAR lam1 0 0)
  let s := link s (let0 + 2) (get_arg s expr 1)
  (s, lam0, lam1, par0)

/-- The LET-LAM rewrite body (source lines 813–834). -/
def letLamRule (f : Nat) (s : State) (host term expr : Nat) : Option State :=
  let s := { s with gas := s.gas + 1 }
  let pre := letLamPre s term expr
  let s0 := pre.1
  let lam0 := pre.2.1
  let lam1 := pre.2.2.1
  let par0 := pre.2.2.2
  match subst f s0 (get_arg s0 term 0) (ptr LAM lam0 0 0) with
  | none => none
  | some s1 =>
    match subst f s1 (get_arg s1 term 1) (ptr LAM lam1 0 0) with
    | none => none
    | some s2 =>
      match subst f s2 (get_arg s2 expr 0) (ptr PAR par0 (get_ex0 term) 0) with
      | none => none
      | some s3 =>
        let s4 := link s3 host (ptr LAM (if get_tag term = DP0 then lam0 else lam1) 0 0)
        let s5 := free s4 (get_loc term 0) 3
        some (free s5 (get_loc expr 0) 2)

/-- The annihilating LET-PAR rewrite body (equal colors, source lines
851–860). -/
def letParAnnRule (f : Nat) (s : State) (host term expr : Nat) : Option State :=
  let s := { s with gas := s.gas + 1 }
  match subst f s (get_arg s term 0) (get_arg s expr 0) with
  | none => none
  | some s1 =>
    match subst f s1 (get_arg s1 term 1) (get_arg s1 expr 1) with
    | none => none
    | some s2 =>
      let s3 := link s2 host (get_arg s2 expr (if get_tag term = DP0 then 0 else 1))
      let s4 := free s3 (get_loc term 0) 3
      some (free s4 (get_loc expr 0) 2)

/-- The allocation-and-wiring prefix of the commuting LET-PAR rewrite
(source lines 863–872); returns the new state and `(par0, par1)`. -/
def letParComPre (s : State) (term expr : Nat) : State × Nat × Nat :=
  let a0 := alloc s 2
  let par0 := a0.1
  let s := a0.2
  let a1 := alloc s 2
  let par1 := a1.1
  let s := a1.2
  let a2 := alloc s 3
  let let0 := a2.1
  let s := a2.2
  let a3 := alloc s 3
  let let1 := a3.1
  let s := a3.2
  let s := link s (par0 + 0) (ptr DP0 let0 (get_ex0 term) 0)
  let s := link s (par0 + 1) (ptr DP0 let1 (get_ex0 term) 0)
  let s := link s (par1 + 0) (ptr DP1 let0 (get_ex0 term) 0)
  let s := link s (par1 + 1) (ptr DP1 let1 (get_ex0 term) 0)
  let s := link s (let0 + 2) (get_arg s expr 0)
  let s := link s (let1 + 2) (get_arg s expr 1)
  (s, par0, par1)

/-- The substitution-and-free tail of the commuting LET-PAR rewrite
(source lines 873–880), abstracted over the state `s0` left by the
prefix. -/
def letParComTail (f : Nat) (s0 : State) (host term expr par0 par1 : Nat) : Option State :=
  match subst f s0 (get_arg s0 term 0) (ptr PAR par0 (get_ex0 expr) 0) with
  | none => none
  | some s1 =>
    match subst f s1 (get_arg s1 term 1) (ptr PAR par1 (get_ex0 expr) 0) with
    | none => none
    | some s2 =>
      let s3 := link s2 host (ptr PAR (if get_tag term = DP0 then par0 else par1) (get_ex0 expr) 0)
      let s4 := free s3 (get_loc term 0) 3
      some (free s4 (get_loc expr 0) 2)

/-- The commuting LET-PAR rewrite body (unequal colors, source lines
861–881). -/
def letParComRule (f : Nat) (s : State) (host term expr : Nat) : Option State :=
  let s := { s with gas := s.gas + 1 }
  let pre := letParComPre s term expr
  letParComTail f pre.1 host term expr pre.2.1 pre.2.2

/-- The per-argument loop of the LET-CTR rewrite. -/
def letCtrLoop : State → Nat → Nat → Nat → Nat → Nat → State
  | s, _, _, _, _, 0 => s
  | s, expr, ctr0, ctr1, i, Nat.succ k =>
    let a := alloc s 3
    let leti := a.1
    let s1 := a.2
    let s2 := link s1 (ctr0 + i) (ptr DP0 leti 0 0)
    let s3 := link s2 (ctr1 + i) (ptr DP1 leti 0 0)
    let s4 := link s3 (leti + 2) (get_arg s3 expr i)
    letCtrLoop s4 expr ctr0 ctr1 (i + 1) k

/-- The allocation-and-wiring prefix of the LET-CTR rewrite (source
lines 897–904); returns the new state and `(ctr0, ctr1)`. -/
def letCtrPre (s : State) (expr : Nat) : State × Nat × Nat :=
  let arit := get_ex0 expr
  let a0 := alloc s arit
  let ctr0 := a0.1
  let s := a0.2
  let a1 := alloc s arit
  let ctr1 := a1.1
  let s := a1.2
  let s := letCtrLoop s expr ctr0 ctr1 0 arit
  (s, ctr0, ctr1)

/-- The substitution-and-free tail of the LET-CTR rewrite (source
lines 905–909), abstracted over the state `s0` left by the prefix. -/
def letCtrTail (f : Nat) (s0 : State) (host term expr ctr0 ctr1 : Nat) : Option State :=
  let arit := get_ex0 expr
  let func := get_ex1 expr
  match subst f s0 (get_arg s0 term 0) (ptr CTR ctr0 arit func) with
  | none => none
  | some s1 =>
    match subst f s1 (get_arg s1 term 1) (ptr CTR ctr1 arit func) with
    | none => none
    | some s2 =>
      let s3 := link s2 host (ptr CTR (if get_tag term = DP0 then ctr0 else ctr1) arit func)
      let s4 := free s3 (get_loc term 0) 3
      some (free s4 (get_loc expr 0) arit)

/-- The LET-CTR rewrite body (source lines 892–912); note the source
builds the fresh projections with `ptr(DP0, leti)`, i.e. color 0. -/
def letCtrRule (f : Nat) (s : State) (host term expr : Nat) : Option State :=
  let s := { s with gas := s.gas + 1 }
  let pre := letCtrPre s expr
  letCtrTail f pre.1 host term expr pre.2.1 pre.2.2

/-- `reduce(host)`: the whnf driver (source lines 752–918).  The
`while (true)` loop with `continue` becomes recursion at `host`; each
recursive call and loop iteration consumes one unit of fuel. -/
def reduce : Nat → State → Nat → Option (State × Nat)
  | 0, _, _ => none
  | Nat.succ f, s, host =>
    let term := memGet s host
    if get_tag term = APP then
      match reduce f s (get_loc term 0) with
      | none => none
      | some (s1, func) =>
        if get_tag func = LAM then
          if gasReached s1 then some (s1, term)
          else
            match appLamRule f s1 host term func with
            | none => none
            | some s2 => reduce f s2 host
        else if get_tag func = PAR then
          if gasReached s1 then some (s1, term)
          else
            let s2 := appParRule s1 host term func
            some (s2, memGet s2 host)
        else some (s1, term)
    else if get_tag term = DP0 ∨ get_tag term = DP1 then
      match reduce f s (get_loc term 2) with
      | none => none
      | some (s1, expr) =>
        if get_tag expr = LAM then
          if gasReached s1 then some (s1, term)
          else
            match letLamRule f s1 host term expr with
            | none => none
            | some s2 => reduce f s2 host
        else if get_tag expr = PAR then
          if gasReached s1 then some (s1, term)
          else if get_ex0 term = get_ex0 expr then
            match letParAnnRule f s1 host term expr with
            | none => none
            | some s2 => reduce f s2 host
          else
            match letParComRule f s1 host term expr with
            | none => none
            | some s2 => some (s2, memGet s2 host)
        else if get_tag expr = CTR then
          if gasReached s1 then some (s1, term)
          else
            match letCtrRule f s1 host term expr with
            | none => none
            | some s2 => some (s2, memGet s2 host)
        else some (s1, term)
    else some (s, term)

mutual

/-- `normal`'s inner `go`, threading the `seen` set (keyed, as in the
source, on `get_loc(term, 0)`). -/
def normalGo : Nat → State → List Nat → Nat → Option (State × List Nat × Nat)
  | 0, _, _, _ => none
  | Nat.succ f, s, seen, host =>
    let term := memGet s host
    if get_loc term 0 ∈ seen then some (s, seen, term)
    else
      match reduce (Nat.succ f) s host with
      | none => none
      | some (s1, t1) =>
        let seen1 := get_loc t1 0 :: seen
        if get_tag t1 = LAM then
          match normalGo f s1 seen1 (get_loc t1 1) with
          | none => none
          | some (s2, seen2, t2) => some (link s2 (get_loc t1 1) t2, seen2, t1)
        else if get_tag t1 = APP then
          match normalGo f s1 seen1 (get_loc t1 0) with
          | none => none
          | some (s2, seen2, t2) =>
            let s3 := link s2 (get_loc t1 0) t2
            match normalGo f s3 seen2 (get_loc t1 1) with
            | none => none
            | some (s4, seen4, t4) => some (link s4 (get_loc t1 1) t4, seen4, t1)
        else if get_tag t1 = PAR then
          match normalGo f s1 seen1 (get_loc t1 0) with
          | none => none
          | some (s2, seen2, t2) =>
            let s3 := link s2 (get_loc t1 0) t2
            match normalGo f s3 seen2 (get_loc t1 1) with
            | none => none
            | some (s4, seen4, t4) => some (link s4 (get_loc t1 1) t4, seen4, t1)
        else if get_tag t1 = DP0 ∨ get_tag t1 = DP1 then
          match normalGo f s1 seen1 (get_loc t1 2) with
          | none => none
          | some (s2, seen2, t2) => some (link s2 (get_loc t1 2) t2, seen2, t1)
        else if get_tag t1 = CAL ∨ get_tag t1 = CTR then
          match normalArgs f s1 seen1 t1 0 (get_ex0 t1) with
          | none => none
          | some (s2, seen2) => some (s2, seen2, t1)
        else some (s1, seen1, t1)

/-- The `for` loop of `normal` over `Ctr`/`Cal` arguments. -/
def normalArgs : Nat → State → List Nat → Nat → Nat → Nat → Option (State × List Nat)
  | 0, _, _, _, _, _ => none
  | Nat.succ _, s, seen, _, _, 0 => some (s, seen)
  | Nat.succ f, s, seen, term, i, Nat.succ k =>
    match normalGo f s seen (get_loc term i) with
    | none => none
    | some (s1, seen1, t1) =>
      normalArgs f (link s1 (get_loc term i) t1) seen1 term (i + 1) k

end

/-- `normal(host)` (source lines 920–961). -/
def normal (f : Nat) (s : State) (host : Nat) : Option (State × Nat) :=
  match normalGo f s [] host with
  | none => none
  | some (s1, _, t1) => some (s1, t1)

/-! ### The textual surface builder `read` (source lines 471–640) -/

/-- Parser state: remaining code, the name tables, the pending
variable occurrences, and the heap under construction. -/
structure ParseSt where
  code : List Char
  lams : List (String × Nat)
  let0s : List (String × Nat)
  let1s : List (String × Nat)
  tag0s : List (String × Nat)
  tag1s : List (String × Nat)
  vars : List (String × Nat)
  st : State
deriving Repr

/-- `skip()`. -/
def skipWs : List Char → List Char
  | ' ' :: cs => skipWs cs
  | '\n' :: cs => skipWs cs
  | cs => cs

def isNameChar (c : Char) : Bool :=
  ('a' ≤ c ∧ c ≤ 'z') ∨ ('A' ≤ c ∧ c ≤ 'Z') ∨ ('0' ≤ c ∧ c ≤ '9') ∨ c = '_' ∨ c = '.'

/-- The character-gathering loop of `parse_name`. -/
def takeName : List Char → List Char × List Char
  | [] => ([], [])
  | c :: cs =>
    if isNameChar c then
      let (nm, rest) := takeName cs
      (c :: nm, rest)
    else ([], c :: cs)

/-- `parse_name()`: skip whitespace, then gather name characters. -/
def parse_name (code : List Char) : String × List Char :=
  let (nm, rest) := takeName (skipWs code)
  (String.mk nm, rest)

/-- Expect `tok` as the next characters, dropping it. -/
def dropTok : List Char → List Char → Option (List Char)
  | [], cs => some cs
  | _ :: _, [] => none
  | t :: ts, c :: cs => if c = t then dropTok ts cs else none

/-- `consume(str)`: skip whitespace, then expect `str`. -/
def consume (tok : List Char) (code : List Char) : Option (List Char) :=
  dropTok tok (skipWs code)

def isDigit (c : Char) : Bool := '0' ≤ c ∧ c ≤ '9'

/-- The digit-gathering loop of `parse_numb`. -/
def takeNumb : Nat → List Char → Nat × List Char
  | acc, [] => (acc, [])
  | acc, c :: cs =>
    if isDigit c then takeNumb (acc * 10 + (c.toNat - '0'.toNat)) cs
    else (acc, c :: cs)

/-- `parse_numb()`: a possibly-empty digit string (empty gives 0). -/
def parse_numb (code : List Char) : Nat × List Char :=
  takeNumb 0 code

/-- The argument-linking loop of the `$`/`@` cases. -/
def linkArgs : State → Nat → Nat → List Nat → State
  | st, _, _, [] => st
  | st, node, i, t :: ts => linkArgs (link st (node + i) t) node (i + 1) ts

mutual

/-- `parse_term(local)`: builds the graph, returning the pointer of
the parsed term.  The source's `local` parameter is `slot` here. -/
def parse_term : Nat → ParseSt → Nat → Option (Nat × ParseSt)
  | 0, _, _ => none
  | Nat.succ f, p, slot =>
    let code := skipWs p.code
    match code with
    | 'λ' :: rest =>
      let (node, st) := alloc p.st 2
      let (nm, code1) := parse_name rest
      match consume [':'] code1 with
      | none => none
      | some code2 =>
        match parse_term f { p with code := code2, st := st } (node + 1) with
        | none => none
        | some (body, p1) =>
          let st1 := link p1.st (node + 0) (ptr NIL 0 0 0)
          let st2 := link st1 (node + 1) body
          some (ptr LAM node 0 0,
            { p1 with st := st2, lams := (nm, node) :: p1.lams })
    | '(' :: rest =>
      let (node, st) := alloc p.st 2
      match parse_term f { p with code := rest, st := st } (node + 0) with
      | none => none
      | some (func, p1) =>
        match parse_term f p1 (node + 1) with
        | none => none
        | some (argm, p2) =>
          match consume [')'] p2.code with
          | none => none
          | some code1 =>
            let st1 := link p2.st (node + 0) func
            let st2 := link st1 (node + 1) argm
            some (ptr APP node 0 0, { p2 with code := code1, st := st2 })
    | '&' :: rest =>
      let (col, code1) := parse_numb rest
      match consume ['<'] code1 with
      | none => none
      | some code2 =>
        match consume ['>'] code2 with
        | none => none
        | some code3 =>
          let (node, st) := alloc p.st 2
          match parse_term f { p with code := code3, st := st } (node + 0) with
          | none => none
          | some (val0, p1) =>
            match parse_term f p1 (node + 1) with
            | none => none
            | some (val1, p2) =>
              let st1 := link p2.st (node + 0) val0
              let st2 := link st1 (node + 1) val1
              some (ptr PAR node col 0,
                { p2 with code := skipWs p2.code, st := st2 })
    | '!' :: rest =>
      let (col, code1) := parse_numb rest
      match consume ['<'] code1 with
      | none => none
      | some code2 =>
        let (nam0, code3) := parse_name code2
        let (nam1, code4) := parse_name code3
        match consume ['>'] code4 with
        | none => none
        | some code5 =>
          match consume ['='] code5 with
          | none => none
          | some code6 =>
            let (node, st) := alloc p.st 3
            match parse_term f { p with code := code6, st := st } (node + 2) with
            | none => none
            | some (expr, p1) =>
              match consume [';'] p1.code with
              | none => none
              | some code7 =>
                match parse_term f { p1 with code := code7 } slot with
                | none => none
                | some (body, p2) =>
                  let st1 := link p2.st (node + 0) (ptr NIL 0 0 0)
                  let st2 := link st1 (node + 1) (ptr NIL 0 0 0)
                  let st3 := link st2 (node + 2) expr
                  some (body,
                    { p2 with st := st3,
                              let0s := (nam0, node) :: p2.let0s,
                              tag0s := (nam0, col) :: p2.tag0s,
                              let1s := (nam1, node) :: p2.let1s,
                              tag1s := (nam1, col) :: p2.tag1s })
    | '$' :: rest =>
      let (func, code1) := parse_numb rest
      match consume [':'] code1 with
      | none => none
      | some code2 =>
        let (arit, code3) := parse_numb code2
        match consume ['{'] code3 with
        | none => none
        | some code4 =>
          let (node, st) := alloc p.st arit
          match parseArgs f { p with code := code4, st := st } node 0 arit [] with
          | none => none
          | some (args, p1) =>
            match consume ['}'] p1.code with
            | none => none
            | some code5 =>
              let st1 := linkArgs p1.st node 0 args
              some (ptr CTR node arit func, { p1 with code := code5, st := st1 })
    | '@' :: rest =>
      let (func, code1) := parse_numb rest
      match consume [':'] code1 with
      | none => none
      | some code2 =>
        let (arit, code3) := parse_numb code2
        match consume ['{'] code3 with
        | none => none
        | some code4 =>
          let (node, st) := alloc p.st arit
          match parseArgs f { p with code := code4, st := st } node 0 arit [] with
          | none => none
          | some (args, p1) =>
            match consume ['}'] p1.code with
            | none => none
            | some code5 =>
              let st1 := linkArgs p1.st node 0 args
              some (ptr CAL node arit func, { p1 with code := code5, st := st1 })
    | _ =>
      let (nm, code1) := parse_name code
      some (ptr NIL 0 0 0,
        { p with code := code1, vars := p.vars ++ [(nm, slot)] })

/-- The argument-parsing loop of the `$`/`@` cases. -/
def parseArgs : Nat → ParseSt → Nat → Nat → Nat → List Nat →
    Option (List Nat × ParseSt)
  | 0, _, _, _, _, _ => none
  | Nat.succ _, p, _, _, 0, acc => some (acc.reverse, p)
  | Nat.succ f, p, node, i, Nat.succ k, acc =>
    match parse_term f p (node + i) with
    | none => none
    | some (t, p1) => parseArgs f p1 node (i + 1) k (t :: acc)

end

/-- `build()`: resolve every recorded variable occurrence against the
name tables (all three lookups run, as in the source). -/
def buildLoop (lams let0s let1s tag0s tag1s : List (String × Nat)) :
    State → List (String × Nat) → State
  | st, [] => st
  | st, (nm, posv) :: rest =>
    let st1 :=
      match List.lookup nm lams with
      | some lam => link st posv (ptr VAR lam 0 0)
      | none => st
    let st2 :=
      match List.lookup nm let0s with
      | some l0 => link st1 posv (ptr DP0 l0 ((List.lookup nm tag0s).getD 0) 0)
      | none => st1
    let st3 :=
      match List.lookup nm let1s with
      | some l1 => link st2 posv (ptr DP1 l1 ((List.lookup nm tag1s).getD 0) 0)
      | none => st2
    buildLoop lams let0s let1s tag0s tag1s st3 rest

/-- `read(code)`: reset `MEM` to `[ptr(NIL,0)]` (the other globals
persist), parse at the root, resolve variables, return `MEM[0]`. -/
def read (f : Nat) (s : State) (code : List Char) : Option (State × Nat) :=
  let s0 := { s with mem := [ptr NIL 0 0 0] }
  match parse_term f
      { code := code, lams := [], let0s := [], let1s := [], tag0s := [],
        tag1s := [], vars := [], st := s0 } 0 with
  | none => none
  | some (t, p1) =>
    let st1 := link p1.st 0 t
    let st2 := buildLoop p1.lams p1.let0s p1.let1s p1.tag0s p1.tag1s st1 p1.vars
    some (st2, memGet st2 0)

/-- The back-edge integrity invariant at one cell: a `Var`/`Dp0`/`Dp1`
cell's binder slot holds `Lnk` of exactly this cell's index. -/
def backEdgeCellOk (s : State) (i : Nat) : Bool :=
  let t := memGet s i
  if get_tag t = VAR ∨ get_tag t = DP0 then memGet s (get_loc t 0) == ptr LNK i 0 0
  else if get_tag t = DP1 then memGet s (get_loc t 1) == ptr LNK i 0 0
  else true

/-- Back-edge integrity over the whole heap. -/
def backEdgeOk (s : State) : Bool :=
  (List.range s.mem.length).all (backEdgeCellOk s)

/-! ### Concrete inputs and states used by individual claims -/

/-- Scenario S1 of the spec. -/
def inS1 : List Char := "(λx: x λa: λb: a)".data

/-- A well-formed surface term whose duplicator expression contains the
duplicator's own second projection (`y` occurs inside the pair being
duplicated). -/
def inCyc : List Char := "!0<x y> = &0<> y λs:s; x".data

/-- The scope-violation example: the application `(t λz: z)` sits above
the redex `(λt: λs: s λa: λb: a)` that substitutes into it. -/
def inScope : List Char := "((t λz: z) (λt: λs: s λa: λb: a))".data

/-- The heap built by `read` for `λx: x`: `[Lam:1, Lnk:2, Var:1]`. -/
def wId : State :=
  { mem := [1048577, 2097159, 1048582], re0 := [], re1 := [], re2 := [],
    re3 := [], gas := 0, lim := none }

/-- A heap whose root holds `Dp0` of the duplicator at 1 (slots 1–3),
with the `Dp1` occurrence at 4 and a color-0 `Par` at 5 as the
duplicated expression. -/
def wDup : State :=
  { mem := [1048580, 7, 4194311, 5242883, 1048581, 0, 0], re0 := [],
    re1 := [], re2 := [], re3 := [], gas := 0, lim := none }

/-- A heap whose root holds `App` of the `Lam` at 3 (unused binder)
to a `Nil` argument. -/
def wApp : State :=
  { mem := [1048578, 3145729, 0, 0, 0], re0 := [], re1 := [], re2 := [],
    re3 := [], gas := 0, lim := none }

/-- A heap whose root holds an `App` whose function slot is `Nil`. -/
def wStuckApp : State :=
  { mem := [1048578, 0, 0], re0 := [], re1 := [], re2 := [], re3 := [],
    gas := 0, lim := none }

/-- `wStuckApp` with the gas limit set to 0, i.e. already exhausted. -/
def wGas : State :=
  { mem := [1048578, 0, 0], re0 := [], re1 := [], re2 := [], re3 := [],
    gas := 0, lim := some 0 }

/-- A heap whose root holds `Dp0` of the duplicator at 1 whose
expression slot is `Nil`. -/
def wStuckDup : State :=
  { mem := [1048580, 7, 0, 0], re0 := [], re1 := [], re2 := [], re3 := [],
    gas := 0, lim := none }

/-! ### Helper lemmas: heap reads and writes -/

theorem memGet_memSet (s : State) (p v q : Nat) :
    memGet (memSet s p v) q = if q = p then v else memGet s q := by
  unfold memGet memSet
  by_cases hp : p < s.mem.length
  · rw [if_pos hp]
    simp only [List.getD_eq_getElem?_getD, List.getElem?_set]
    by_cases hq : q = p
    · subst hq; simp [hp]
    · simp [hq, Ne.symm hq]
  · rw [if_neg hp]
    show (s.mem ++ List.replicate (p - s.mem.length) 0 ++ [v]).getD q 0 = _
    simp only [List.getD_eq_getElem?_getD, List.getElem?_append, List.length_append,
      List.length_replicate, List.getElem?_replicate]
    by_cases h1 : q < s.mem.length
    · have hqp : ¬ (q = p) := by omega
      simp [h1, hqp, show q < s.mem.length + (p - s.mem.length) by omega]
    · by_cases h2 : q < s.mem.length + (p - s.mem.length)
      · have hqp : ¬ (q = p) := by omega
        have hn : s.mem[q]? = none := List.getElem?_eq_none (by omega)
        simp [h1, h2, hqp, show q - s.mem.length < p - s.mem.length by omega, hn]
      · by_cases h3 : q = p
        · subst h3
          have hz : q - (s.mem.length + (q - s.mem.length)) = 0 := by omega
          simp [h1, h2, hz]
        · have h4 : [v][q - (s.mem.length + (p - s.mem.length))]? = none :=
            List.getElem?_eq_none (by simp; omega)
          have hn : s.mem[q]? = none := List.getElem?_eq_none (by omega)
          simp [h1, h2, h3, h4, hn]

@[simp] theorem memSet_re0 (s : State) (p v : Nat) : (memSet s p v).re0 = s.re0 := by
  unfold memSet; split <;> rfl

@[simp] theorem memSet_re1 (s : State) (p v : Nat) : (memSet s p v).re1 = s.re1 := by
  unfold memSet; split <;> rfl

@[simp] theorem memSet_re2 (s : State) (p v : Nat) : (memSet s p v).re2 = s.re2 := by
  unfold memSet; split <;> rfl

@[simp] theorem memSet_re3 (s : State) (p v : Nat) : (memSet s p v).re3 = s.re3 := by
  unfold memSet; split <;> rfl

@[simp] theorem memSet_gas (s : State) (p v : Nat) : (memSet s p v).gas = s.gas := by
  unfold memSet; split <;> rfl

@[simp] theorem memSet_lim (s : State) (p v : Nat) : (memSet s p v).lim = s.lim := by
  unfold memSet; split <;> rfl

@[simp] theorem link_gas (s : State) (p t : Nat) : (link s p t).gas = s.gas := by
  unfold link; split
  · simp
  · split
    · simp
    · split <;> simp

@[simp] theorem link_lim (s : State) (p t : Nat) : (link s p t).lim = s.lim := by
  unfold link; split
  · simp
  · split
    · simp
    · split <;> simp

@[simp] theorem memPush_gas (s : State) (v : Nat) : (memPush s v).gas = s.gas := rfl

@[simp] theorem memPush_lim (s : State) (v : Nat) : (memPush s v).lim = s.lim := rfl

theorem pushZeros_fields (n : Nat) : ∀ (s : State),
    (pushZeros s n).gas = s.gas ∧ (pushZeros s n).lim = s.lim ∧
    (pushZeros s n).re0 = s.re0 ∧ (pushZeros s n).re1 = s.re1 ∧
    (pushZeros s n).re2 = s.re2 ∧ (pushZeros s n).re3 = s.re3 := by
  induction n with
  | zero => intro s; exact ⟨rfl, rfl, rfl, rfl, rfl, rfl⟩
  | succ k ih =>
    intro s
    show (pushZeros (memPush s 0) k).gas = s.gas ∧ _
    rcases ih (memPush s 0) with ⟨h1, h2, h3, h4, h5, h6⟩
    exact ⟨h1, h2, h3, h4, h5, h6⟩

theorem pushZeros_mem (n : Nat) : ∀ (s : State),
    (pushZeros s n).mem = s.mem ++ List.replicate n 0 := by
  induction n with
  | zero => intro s; simp [pushZeros]
  | succ k ih =>
    intro s
    show (pushZeros (memPush s 0) k).mem = _
    rw [ih (memPush s 0)]
    show s.mem ++ [0] ++ List.replicate k 0 = _
    rw [List.append_assoc, List.singleton_append, ← List.replicate_succ]

theorem zeroCells_fields (n : Nat) : ∀ (s : State) (p : Nat),
    (zeroCells s p n).gas = s.gas ∧ (zeroCells s p n).lim = s.lim ∧
    (zeroCells s p n).re0 = s.re0 ∧ (zeroCells s p n).re1 = s.re1 ∧
    (zeroCells s p n).re2 = s.re2 ∧ (zeroCells s p n).re3 = s.re3 := by
  induction n with
  | zero => intro s p; exact ⟨rfl, rfl, rfl, rfl, rfl, rfl⟩
  | succ k ih =>
    intro s p
    rcases ih (memSet s p 0) (p + 1) with ⟨h1, h2, h3, h4, h5, h6⟩
    exact ⟨h1.trans (memSet_gas s p 0), h2.trans (memSet_lim s p 0),
      h3.trans (memSet_re0 s p 0), h4.trans (memSet_re1 s p 0),
      h5.trans (memSet_re2 s p 0), h6.trans (memSet_re3 s p 0)⟩

theorem zeroCells_memGet (n : Nat) : ∀ (s : State) (p q : Nat),
    memGet (zeroCells s p n) q = if p ≤ q ∧ q < p + n then 0 else memGet s q := by
  induction n with
  | zero =>
    intro s p q
    have h : ¬ (p ≤ q ∧ q < p) := by omega
    simp [zeroCells, h]
  | succ k ih =>
    intro s p q
    show memGet (zeroCells (memSet s p 0) (p + 1) k) q = _
    rw [ih (memSet s p 0) (p + 1) q, memGet_memSet]
    by_cases h1 : p + 1 ≤ q ∧ q < p + 1 + k
    · have hc : p ≤ q ∧ q < p + (k + 1) := by omega
      simp [h1, hc]
    · by_cases h2 : q = p
      · have hc : p ≤ q ∧ q < p + (k + 1) := by omega
        simp [h1, h2, hc]
      · have hc : ¬ (p ≤ q ∧ q < p + (k + 1)) := by omega
        simp [h1, h2, hc]

theorem free_gas (s : State) (p n : Nat) : (free s p n).gas = s.gas := by
  unfold free
  rcases (zeroCells_fields n s p) with ⟨h1, _, _, _, _, _⟩
  rcases n with _ | _ | _ | _ | n <;> simpa using h1

theorem free_lim (s : State) (p n : Nat) : (free s p n).lim = s.lim := by
  unfold free
  rcases (zeroCells_fields n s p) with ⟨_, h2, _, _, _, _⟩
  rcases n with _ | _ | _ | _ | n <;> simpa using h2

theorem free_memGet (s : State) (p n q : Nat) :
    memGet (free s p n) q = if p ≤ q ∧ q < p + n then 0 else memGet s q := by
  have hz := zeroCells_memGet n s p q
  unfold free
  rcases n with _ | _ | _ | _ | n <;>
    simpa only [memGet] using hz

theorem alloc_gas (s : State) (n : Nat) : (alloc s n).2.gas = s.gas := by
  unfold alloc
  rcases (pushZeros_fields 1 s) with ⟨g1, -⟩
  rcases (pushZeros_fields 2 s) with ⟨g2, -⟩
  rcases (pushZeros_fields 3 s) with ⟨g3, -⟩
  rcases n with _ | _ | _ | _ | n
  · rcases h : s.re0 with _ | ⟨a, rest⟩ <;> simp [h]
  · rcases h : s.re1 with _ | ⟨a, rest⟩ <;> simp [h, g1]
  · rcases h : s.re2 with _ | ⟨a, rest⟩ <;> simp [h, g2]
  · rcases h : s.re3 with _ | ⟨a, rest⟩ <;> simp [h, g3]
  · rcases (pushZeros_fields (n + 4) s) with ⟨g4, -⟩
    simp [g4]

theorem collect_collectArgs_gas (f : Nat) :
    (∀ (s : State) (term : Nat) (host : Option Nat) (s' : State),
      collect f s term host = some s' → s'.gas = s.gas ∧ s'.lim = s.lim)
    ∧ (∀ (s : State) (term i k : Nat) (s' : State),
      collectArgs f s term i k = some s' → s'.gas = s.gas ∧ s'.lim = s.lim) := by
  induction f with
  | zero =>
    constructor
    · intro s term host s' h; simp [collect] at h
    · intro s term i k s' h; simp [collectArgs] at h
  | succ f ih =>
    obtain ⟨ihc, iha⟩ := ih
    constructor
    · intro s term host s' h
      simp only [collect] at h
      split at h
      · -- LAM
        split at h
        · exact Option.noConfusion h
        · rename_i s2 heq
          obtain ⟨hg, hl⟩ := ihc _ _ _ _ heq
          injection h with h; subst h
          refine ⟨?_, ?_⟩
          · rw [free_gas, hg]; split <;> simp
          · rw [free_lim, hl]; split <;> simp
      split at h
      · -- APP
        split at h
        · exact Option.noConfusion h
        · rename_i s1 heq1
          split at h
          · exact Option.noConfusion h
          · rename_i s2 heq2
            obtain ⟨hg1, hl1⟩ := ihc _ _ _ _ heq1
            obtain ⟨hg2, hl2⟩ := ihc _ _ _ _ heq2
            injection h with h; subst h
            exact ⟨by rw [free_gas, hg2, hg1], by rw [free_lim, hl2, hl1]⟩
      split at h
      · -- PAR
        split at h
        · exact Option.noConfusion h
        · rename_i s1 heq1
          split at h
          · exact Option.noConfusion h
          · rename_i s2 heq2
            obtain ⟨hg1, hl1⟩ := ihc _ _ _ _ heq1
            obtain ⟨hg2, hl2⟩ := ihc _ _ _ _ heq2
            injection h with h; subst h
            refine ⟨?_, ?_⟩ <;> rcases host with _ | hv <;>
              simp [free_gas, free_lim, hg1, hg2, hl1, hl2,
                apply_ite (State.gas), apply_ite (State.lim)]
      split at h
      · -- DP0
        injection h with h; subst h
        refine ⟨?_, ?_⟩ <;> rcases host with _ | hv <;>
          simp [free_gas, free_lim, apply_ite (State.gas), apply_ite (State.lim)]
      split at h
      · -- DP1
        injection h with h; subst h
        refine ⟨?_, ?_⟩ <;> rcases host with _ | hv <;>
          simp [free_gas, free_lim, apply_ite (State.gas), apply_ite (State.lim)]
      split at h
      · -- CTR / CAL
        split at h
        · exact Option.noConfusion h
        · rename_i s1 heq
          obtain ⟨hg, hl⟩ := iha _ _ _ _ _ heq
          injection h with h; subst h
          exact ⟨by rw [free_gas, hg], by rw [free_lim, hl]⟩
      split at h
      · -- VAR
        injection h with h; subst h
        refine ⟨?_, ?_⟩ <;> rcases host with _ | hv <;>
          simp [free_gas, free_lim, apply_ite (State.gas), apply_ite (State.lim)]
      -- default
      injection h with h; subst h
      exact ⟨rfl, rfl⟩
    · intro s term i k s' h
      rcases k with _ | k
      · simp only [collectArgs] at h
        injection h with h; subst h
        exact ⟨rfl, rfl⟩
      · simp only [collectArgs] at h
        split at h
        · exact Option.noConfusion h
        · rename_i s1 heq
          obtain ⟨hg1, hl1⟩ := ihc _ _ _ _ heq
          obtain ⟨hg2, hl2⟩ := iha _ _ _ _ _ h
          exact ⟨hg2.trans hg1, hl2.trans hl1⟩

theorem subst_gas (f : Nat) (s : State) (lnk val : Nat) (s' : State)
    (h : subst f s lnk val = some s') : s'.gas = s.gas ∧ s'.lim = s.lim := by
  unfold subst at h
  split at h
  · injection h with h; subst h; simp
  · exact (collect_collectArgs_gas f).1 _ _ _ _ h

theorem alloc_lim (s : State) (n : Nat) : (alloc s n).2.lim = s.lim := by
  unfold alloc
  rcases (pushZeros_fields 1 s) with ⟨-, g1, -⟩
  rcases (pushZeros_fields 2 s) with ⟨-, g2, -⟩
  rcases (pushZeros_fields 3 s) with ⟨-, g3, -⟩
  rcases n with _ | _ | _ | _ | n
  · rcases h : s.re0 with _ | ⟨a, rest⟩ <;> simp [h]
  · rcases h : s.re1 with _ | ⟨a, rest⟩ <;> simp [h, g1]
  · rcases h : s.re2 with _ | ⟨a, rest⟩ <;> simp [h, g2]
  · rcases h : s.re3 with _ | ⟨a, rest⟩ <;> simp [h, g3]
  · rcases (pushZeros_fields (n + 4) s) with ⟨-, g4, -⟩
    simp [g4]

/-! ### Each rewrite rule consumes exactly one unit of gas -/

theorem appLamRule_gas (f : Nat) (s : State) (host term func : Nat) (s2 : State)
    (h : appLamRule f s host term func = some s2) :
    s2.gas = s.gas + 1 ∧ s2.lim = s.lim := by
  simp only [appLamRule] at h
  split at h
  · exact Option.noConfusion h
  · rename_i s1 heq
    obtain ⟨hg, hl⟩ := subst_gas _ _ _ _ _ heq
    injection h with h; subst h
    constructor
    · rw [free_gas, free_gas, link_gas, hg]
    · rw [free_lim, free_lim, link_lim, hl]

theorem appParRule_gas (s : State) (host term func : Nat) :
    (appParRule s host term func).gas = s.gas + 1 ∧
    (appParRule s host term func).lim = s.lim := by
  unfold appParRule
  constructor <;> simp [alloc_gas, alloc_lim, free_gas, free_lim]

theorem letCtrLoop_gas (k : Nat) : ∀ (s : State) (expr ctr0 ctr1 i : Nat),
    (letCtrLoop s expr ctr0 ctr1 i k).gas = s.gas ∧
    (letCtrLoop s expr ctr0 ctr1 i k).lim = s.lim := by
  induction k with
  | zero => intro s expr ctr0 ctr1 i; exact ⟨rfl, rfl⟩
  | succ k ih =>
    intro s expr ctr0 ctr1 i
    simp only [letCtrLoop]
    constructor
    · rw [(ih _ expr ctr0 ctr1 (i + 1)).1]
      rw [link_gas, link_gas, link_gas, alloc_gas]
    · rw [(ih _ expr ctr0 ctr1 (i + 1)).2]
      rw [link_lim, link_lim, link_lim, alloc_lim]

theorem letLamPre_gas (s : State) (term expr : Nat) :
    (letLamPre s term expr).1.gas = s.gas ∧ (letLamPre s term expr).1.lim = s.lim := by
  constructor
  · simp only [letLamPre]
    rw [link_gas, link_gas, link_gas, link_gas, link_gas,
      alloc_gas, alloc_gas, alloc_gas, alloc_gas]
  · simp only [letLamPre]
    rw [link_lim, link_lim, link_lim, link_lim, link_lim,
      alloc_lim, alloc_lim, alloc_lim, alloc_lim]

theorem letParComPre_gas (s : State) (term expr : Nat) :
    (letParComPre s term expr).1.gas = s.gas ∧ (letParComPre s term expr).1.lim = s.lim := by
  constructor
  · simp only [letParComPre]
    rw [link_gas, link_gas, link_gas, link_gas, link_gas, link_gas,
      alloc_gas, alloc_gas, alloc_gas, alloc_gas]
  · simp only [letParComPre]
    rw [link_lim, link_lim, link_lim, link_lim, link_lim, link_lim,
      alloc_lim, alloc_lim, alloc_lim, alloc_lim]

theorem letCtrPre_gas (s : State) (expr : Nat) :
    (letCtrPre s expr).1.gas = s.gas ∧ (letCtrPre s expr).1.lim = s.lim := by
  constructor
  · simp only [letCtrPre]
    rw [(letCtrLoop_gas _ _ _ _ _ _).1, alloc_gas, alloc_gas]
  · simp only [letCtrPre]
    rw [(letCtrLoop_gas _ _ _ _ _ _).2, alloc_lim, alloc_lim]

theorem letLamRule_gas (f : Nat) (s : State) (host term expr : Nat) (s' : State)
    (h : letLamRule f s host term expr = some s') :
    s'.gas = s.gas + 1 ∧ s'.lim = s.lim := by
  simp only [letLamRule] at h
  split at h
  · exact Option.noConfusion h
  · rename_i s1 heq1
    split at h
    · exact Option.noConfusion h
    · rename_i s2 heq2
      split at h
      · exact Option.noConfusion h
      · rename_i s3 heq3
        obtain ⟨hg1, hl1⟩ := subst_gas _ _ _ _ _ heq1
        obtain ⟨hg2, hl2⟩ := subst_gas _ _ _ _ _ heq2
        obtain ⟨hg3, hl3⟩ := subst_gas _ _ _ _ _ heq3
        injection h with h; subst h
        constructor
        · rw [free_gas, free_gas, link_gas, hg3, hg2, hg1, (letLamPre_gas _ _ _).1]
        · rw [free_lim, free_lim, link_lim, hl3, hl2, hl1, (letLamPre_gas _ _ _).2]

theorem letParAnnRule_gas (f : Nat) (s : State) (host term expr : Nat) (s' : State)
    (h : letParAnnRule f s host term expr = some s') :
    s'.gas = s.gas + 1 ∧ s'.lim = s.lim := by
  simp only [letParAnnRule] at h
  split at h
  · exact Option.noConfusion h
  · rename_i s1 heq1
    split at h
    · exact Option.noConfusion h
    · rename_i s2 heq2
      obtain ⟨hg1, hl1⟩ := subst_gas _ _ _ _ _ heq1
      obtain ⟨hg2, hl2⟩ := subst_gas _ _ _ _ _ heq2
      injection h with h; subst h
      constructor
      · rw [free_gas, free_gas, link_gas, hg2, hg1]
      · rw [free_lim, free_lim, link_lim, hl2, hl1]

theorem letParComTail_gas (f : Nat) (s0 : State) (host term expr par0 par1 : Nat)
    (s' : State) (h : letParComTail f s0 host term expr par0 par1 = some s') :
    s'.gas = s0.gas ∧ s'.lim = s0.lim := by
  simp only [letParComTail] at h
  split at h
  · exact Option.noConfusion h
  · rename_i s1 heq1
    split at h
    · exact Option.noConfusion h
    · rename_i s2 heq2
      obtain ⟨hg1, hl1⟩ := subst_gas _ _ _ _ _ heq1
      obtain ⟨hg2, hl2⟩ := subst_gas _ _ _ _ _ heq2
      injection h with h; subst h
      constructor
      · rw [free_gas, free_gas, link_gas, hg2, hg1]
      · rw [free_lim, free_lim, link_lim, hl2, hl1]

theorem letParComRule_gas (f : Nat) (s : State) (host term expr : Nat) (s' : State)
    (h : letParComRule f s host term expr = some s') :
    s'.gas = s.gas + 1 ∧ s'.lim = s.lim := by
  have h' : letParComTail f (letParComPre { s with gas := s.gas + 1 } term expr).1
      host term expr (letParComPre { s with gas := s.gas + 1 } term expr).2.1
      (letParComPre { s with gas := s.gas + 1 } term expr).2.2 = some s' := h
  obtain ⟨hg, hl⟩ := letParComTail_gas _ _ _ _ _ _ _ _ h'
  rw [(letParComPre_gas _ _ _).1] at hg
  rw [(letParComPre_gas _ _ _).2] at hl
  exact ⟨hg, hl⟩

theorem letCtrTail_gas (f : Nat) (s0 : State) (host term expr ctr0 ctr1 : Nat)
    (s' : State) (h : letCtrTail f s0 host term expr ctr0 ctr1 = some s') :
    s'.gas = s0.gas ∧ s'.lim = s0.lim := by
  simp only [letCtrTail] at h
  split at h
  · exact Option.noConfusion h
  · rename_i s1 heq1
    split at h
    · exact Option.noConfusion h
    · rename_i s2 heq2
      obtain ⟨hg1, hl1⟩ := subst_gas _ _ _ _ _ heq1
      obtain ⟨hg2, hl2⟩ := subst_gas _ _ _ _ _ heq2
      injection h with h; subst h
      constructor
      · rw [free_gas, free_gas, link_gas, hg2, hg1]
      · rw [free_lim, free_lim, link_lim, hl2, hl1]

theorem letCtrRule_gas (f : Nat) (s : State) (host term expr : Nat) (s' : State)
    (h : letCtrRule f s host term expr = some s') :
    s'.gas = s.gas + 1 ∧ s'.lim = s.lim := by
  have h' : letCtrTail f (letCtrPre { s with gas := s.gas + 1 } expr).1
      host term expr (letCtrPre { s with gas := s.gas + 1 } expr).2.1
      (letCtrPre { s with gas := s.gas + 1 } expr).2.2 = some s' := h
  obtain ⟨hg, hl⟩ := letCtrTail_gas _ _ _ _ _ _ _ _ h'
  rw [(letCtrPre_gas _ _).1] at hg
  rw [(letCtrPre_gas _ _).2] at hl
  exact ⟨hg, hl⟩

/-! ### The whnf driver: gas monotonicity and behaviour at the limit -/

theorem somePair_inj {s1 s2 : State} {t1 t2 : Nat}
    (h : (some (s1, t1) : Option (State × Nat)) = some (s2, t2)) :
    s1 = s2 ∧ t1 = t2 := by
  injection h with h
  exact ⟨congrArg Prod.fst h, congrArg Prod.snd h⟩

theorem someTriple_inj {s1 s2 : State} {l1 l2 : List Nat} {t1 t2 : Nat}
    (h : (some (s1, l1, t1) : Option (State × List Nat × Nat)) = some (s2, l2, t2)) :
    s1 = s2 ∧ l1 = l2 ∧ t1 = t2 := by
  injection h with h
  refine ⟨congrArg Prod.fst h, ?_, ?_⟩
  · exact congrArg (fun p => p.2.1) h
  · exact congrArg (fun p => p.2.2) h

theorem gasReached_congr (s1 s2 : State) (hg : s1.gas = s2.gas)
    (hl : s1.lim = s2.lim) : gasReached s1 = gasReached s2 := by
  unfold gasReached; rw [hg, hl]

theorem gasReached_link {s0 s2 : State} (h : gasReached s0 = true)
    (hg : s2.gas = s0.gas) (hl : s2.lim = s0.lim) (p t : Nat) :
    gasReached (link s2 p t) = true := by
  rw [gasReached_congr (link s2 p t) s0 (by rw [link_gas, hg]) (by rw [link_lim, hl])]
  exact h

theorem reduce_gas_mono (f : Nat) : ∀ (s : State) (host : Nat) (s' : State) (t : Nat),
    reduce f s host = some (s', t) → s.gas ≤ s'.gas ∧ s'.lim = s.lim := by
  induction f with
  | zero => intro s host s' t h; simp [reduce] at h
  | succ f ih =>
    intro s host s' t h
    simp only [reduce] at h
    split at h
    · -- App head
      split at h
      · exact Option.noConfusion h
      · rename_i s1 func heq
        obtain ⟨hg1, hl1⟩ := ih _ _ _ _ heq
        split at h
        · -- App-Lam
          split at h
          · obtain ⟨rfl, rfl⟩ := somePair_inj h
            exact ⟨hg1, hl1⟩
          · split at h
            · exact Option.noConfusion h
            · rename_i s2 heq2
              obtain ⟨hg2, hl2⟩ := appLamRule_gas _ _ _ _ _ _ heq2
              obtain ⟨hg3, hl3⟩ := ih _ _ _ _ h
              exact ⟨by omega, by rw [hl3, hl2, hl1]⟩
        · split at h
          · -- App-Par
            split at h
            · obtain ⟨rfl, rfl⟩ := somePair_inj h
              exact ⟨hg1, hl1⟩
            · obtain ⟨rfl, rfl⟩ := somePair_inj h
              obtain ⟨hg2, hl2⟩ := appParRule_gas s1 host (memGet s host) func
              exact ⟨by omega, by rw [hl2, hl1]⟩
          · obtain ⟨rfl, rfl⟩ := somePair_inj h
            exact ⟨hg1, hl1⟩
    split at h
    · -- Dp0/Dp1 head
      split at h
      · exact Option.noConfusion h
      · rename_i s1 expr heq
        obtain ⟨hg1, hl1⟩ := ih _ _ _ _ heq
        split at h
        · -- Let-Lam
          split at h
          · obtain ⟨rfl, rfl⟩ := somePair_inj h
            exact ⟨hg1, hl1⟩
          · split at h
            · exact Option.noConfusion h
            · rename_i s2 heq2
              obtain ⟨hg2, hl2⟩ := letLamRule_gas _ _ _ _ _ _ heq2
              obtain ⟨hg3, hl3⟩ := ih _ _ _ _ h
              exact ⟨by omega, by rw [hl3, hl2, hl1]⟩
        · split at h
          · -- Let-Par
            split at h
            · obtain ⟨rfl, rfl⟩ := somePair_inj h
              exact ⟨hg1, hl1⟩
            · split at h
              · -- annihilate
                split at h
                · exact Option.noConfusion h
                · rename_i s2 heq2
                  obtain ⟨hg2, hl2⟩ := letParAnnRule_gas _ _ _ _ _ _ heq2
                  obtain ⟨hg3, hl3⟩ := ih _ _ _ _ h
                  exact ⟨by omega, by rw [hl3, hl2, hl1]⟩
              · -- commute
                split at h
                · exact Option.noConfusion h
                · rename_i s2 heq2
                  obtain ⟨hg2, hl2⟩ := letParComRule_gas _ _ _ _ _ _ heq2
                  obtain ⟨rfl, rfl⟩ := somePair_inj h
                  exact ⟨by omega, by rw [hl2, hl1]⟩
          · split at h
            · -- Let-Ctr
              split at h
              · obtain ⟨rfl, rfl⟩ := somePair_inj h
                exact ⟨hg1, hl1⟩
              · split at h
                · exact Option.noConfusion h
                · rename_i s2 heq2
                  obtain ⟨hg2, hl2⟩ := letCtrRule_gas _ _ _ _ _ _ heq2
                  obtain ⟨rfl, rfl⟩ := somePair_inj h
                  exact ⟨by omega, by rw [hl2, hl1]⟩
            · obtain ⟨rfl, rfl⟩ := somePair_inj h
              exact ⟨hg1, hl1⟩
    · obtain ⟨rfl, rfl⟩ := somePair_inj h
      exact ⟨le_refl _, rfl⟩

theorem reduce_stuck (f : Nat) : ∀ (s : State), gasReached s = true →
    ∀ (host : Nat) (s' : State) (t : Nat),
    reduce f s host = some (s', t) → s' = s ∧ t = memGet s host := by
  induction f with
  | zero => intro s hg host s' t h; simp [reduce] at h
  | succ f ih =>
    intro s hg host s' t h
    simp only [reduce] at h
    split at h
    · split at h
      · exact Option.noConfusion h
      · rename_i s1 func heq
        obtain ⟨rfl, rfl⟩ := ih s hg _ _ _ heq
        split at h
        · obtain ⟨h1, h2⟩ := somePair_inj h
          exact ⟨h1.symm, h2.symm⟩
        · split at h
          · obtain ⟨h1, h2⟩ := somePair_inj h
            exact ⟨h1.symm, h2.symm⟩
          · obtain ⟨h1, h2⟩ := somePair_inj h
            exact ⟨h1.symm, h2.symm⟩
    split at h
    · split at h
      · exact Option.noConfusion h
      · rename_i s1 expr heq
        obtain ⟨rfl, rfl⟩ := ih s hg _ _ _ heq
        split at h
        · obtain ⟨h1, h2⟩ := somePair_inj h
          exact ⟨h1.symm, h2.symm⟩
        · split at h
          · obtain ⟨h1, h2⟩ := somePair_inj h
            exact ⟨h1.symm, h2.symm⟩
          · split at h
            · obtain ⟨h1, h2⟩ := somePair_inj h
              exact ⟨h1.symm, h2.symm⟩
            · obtain ⟨h1, h2⟩ := somePair_inj h
              exact ⟨h1.symm, h2.symm⟩
    · obtain ⟨h1, h2⟩ := somePair_inj h
      exact ⟨h1.symm, h2.symm⟩

/-! ### The normalizer: gas monotonicity and behaviour at the limit -/

theorem someStatePair_inj {s1 s2 : State} {l1 l2 : List Nat}
    (h : (some (s1, l1) : Option (State × List Nat)) = some (s2, l2)) :
    s1 = s2 ∧ l1 = l2 := by
  injection h with h
  exact ⟨congrArg Prod.fst h, congrArg Prod.snd h⟩

theorem normal_mono_pair (f : Nat) :
    (∀ (s : State) (seen : List Nat) (host : Nat) (s' : State) (seen' : List Nat) (t : Nat),
      normalGo f s seen host = some (s', seen', t) → s.gas ≤ s'.gas ∧ s'.lim = s.lim)
    ∧ (∀ (s : State) (seen : List Nat) (term i k : Nat) (s' : State) (seen' : List Nat),
      normalArgs f s seen term i k = some (s', seen') → s.gas ≤ s'.gas ∧ s'.lim = s.lim) := by
  induction f with
  | zero =>
    constructor
    · intro s seen host s' seen' t h; simp [normalGo] at h
    · intro s seen term i k s' seen' h; simp [normalArgs] at h
  | succ f ih =>
    obtain ⟨ihg, iha⟩ := ih
    constructor
    · intro s seen host s' seen' t h
      simp only [normalGo] at h
      split at h
      · obtain ⟨rfl, rfl, rfl⟩ := someTriple_inj h
        exact ⟨le_refl _, rfl⟩
      · split at h
        · exact Option.noConfusion h
        · rename_i s1 t1 heq
          obtain ⟨hg1, hl1⟩ := reduce_gas_mono _ _ _ _ _ heq
          split at h
          · -- Lam
            split at h
            · exact Option.noConfusion h
            · rename_i s2 seen2 t2 heq2
              obtain ⟨hg2, hl2⟩ := ihg _ _ _ _ _ _ heq2
              obtain ⟨rfl, rfl, rfl⟩ := someTriple_inj h
              constructor
              · rw [link_gas]; omega
              · rw [link_lim, hl2, hl1]
          · split at h
            · -- App
              split at h
              · exact Option.noConfusion h
              · rename_i s2 seen2 t2 heq2
                split at h
                · exact Option.noConfusion h
                · rename_i s4 seen4 t4 heq4
                  obtain ⟨hg2, hl2⟩ := ihg _ _ _ _ _ _ heq2
                  obtain ⟨hg4, hl4⟩ := ihg _ _ _ _ _ _ heq4
                  obtain ⟨rfl, rfl, rfl⟩ := someTriple_inj h
                  rw [link_gas] at hg4
                  rw [link_lim] at hl4
                  constructor
                  · rw [link_gas]; omega
                  · rw [link_lim, hl4, hl2, hl1]
            · split at h
              · -- Par
                split at h
                · exact Option.noConfusion h
                · rename_i s2 seen2 t2 heq2
                  split at h
                  · exact Option.noConfusion h
                  · rename_i s4 seen4 t4 heq4
                    obtain ⟨hg2, hl2⟩ := ihg _ _ _ _ _ _ heq2
                    obtain ⟨hg4, hl4⟩ := ihg _ _ _ _ _ _ heq4
                    obtain ⟨rfl, rfl, rfl⟩ := someTriple_inj h
                    rw [link_gas] at hg4
                    rw [link_lim] at hl4
                    constructor
                    · rw [link_gas]; omega
                    · rw [link_lim, hl4, hl2, hl1]
              · split at h
                · -- Dp0/Dp1
                  split at h
                  · exact Option.noConfusion h
                  · rename_i s2 seen2 t2 heq2
                    obtain ⟨hg2, hl2⟩ := ihg _ _ _ _ _ _ heq2
                    obtain ⟨rfl, rfl, rfl⟩ := someTriple_inj h
                    constructor
                    · rw [link_gas]; omega
                    · rw [link_lim, hl2, hl1]
                · split at h
                  · -- Cal/Ctr
                    split at h
                    · exact Option.noConfusion h
                    · rename_i s2 seen2 heq2
                      obtain ⟨hg2, hl2⟩ := iha _ _ _ _ _ _ _ heq2
                      obtain ⟨rfl, rfl, rfl⟩ := someTriple_inj h
                      exact ⟨by omega, by rw [hl2, hl1]⟩
                  · obtain ⟨rfl, rfl, rfl⟩ := someTriple_inj h
                    exact ⟨hg1, hl1⟩
    · intro s seen term i k s' seen' h
      rcases k with _ | k
      · simp only [normalArgs] at h
        obtain ⟨rfl, rfl⟩ := someStatePair_inj h
        exact ⟨le_refl _, rfl⟩
      · simp only [normalArgs] at h
        split at h
        · exact Option.noConfusion h
        · rename_i s1 seen1 t1 heq
          obtain ⟨hg1, hl1⟩ := ihg _ _ _ _ _ _ heq
          obtain ⟨hg2, hl2⟩ := iha _ _ _ _ _ _ _ h
          rw [link_gas] at hg2
          rw [link_lim] at hl2
          exact ⟨by omega, by rw [hl2, hl1]⟩

theorem normal_stuck_pair (f : Nat) :
    (∀ (s : State), gasReached s = true →
      ∀ (seen : List Nat) (host : Nat) (s' : State) (seen' : List Nat) (t : Nat),
      normalGo f s seen host = some (s', seen', t) → s'.gas = s.gas ∧ s'.lim = s.lim)
    ∧ (∀ (s : State), gasReached s = true → ∀ (seen : List Nat) (term i k : Nat)
      (s' : State) (seen' : List Nat),
      normalArgs f s seen term i k = some (s', seen') → s'.gas = s.gas ∧ s'.lim = s.lim) := by
  induction f with
  | zero =>
    constructor
    · intro s hg seen host s' seen' t h; simp [normalGo] at h
    · intro s hg seen term i k s' seen' h; simp [normalArgs] at h
  | succ f ih =>
    obtain ⟨ihg, iha⟩ := ih
    constructor
    · intro s hg seen host s' seen' t h
      simp only [normalGo] at h
      split at h
      · obtain ⟨rfl, rfl, rfl⟩ := someTriple_inj h
        exact ⟨rfl, rfl⟩
      · split at h
        · exact Option.noConfusion h
        · rename_i s1 t1 heq
          obtain ⟨rfl, rfl⟩ := reduce_stuck _ _ hg _ _ _ heq
          split at h
          · -- Lam
            split at h
            · exact Option.noConfusion h
            · rename_i s2 seen2 t2 heq2
              obtain ⟨hg2, hl2⟩ := ihg _ hg _ _ _ _ _ heq2
              obtain ⟨rfl, rfl, rfl⟩ := someTriple_inj h
              exact ⟨by rw [link_gas, hg2], by rw [link_lim, hl2]⟩
          · split at h
            · -- App
              split at h
              · exact Option.noConfusion h
              · rename_i s2 seen2 t2 heq2
                split at h
                · exact Option.noConfusion h
                · rename_i s4 seen4 t4 heq4
                  obtain ⟨hg2, hl2⟩ := ihg _ hg _ _ _ _ _ heq2
                  obtain ⟨hg4, hl4⟩ := ihg _ (gasReached_link hg hg2 hl2 _ _) _ _ _ _ _ heq4
                  obtain ⟨rfl, rfl, rfl⟩ := someTriple_inj h
                  rw [link_gas] at hg4
                  rw [link_lim] at hl4
                  exact ⟨by rw [link_gas, hg4, hg2], by rw [link_lim, hl4, hl2]⟩
            · split at h
              · -- Par
                split at h
                · exact Option.noConfusion h
                · rename_i s2 seen2 t2 heq2
                  split at h
                  · exact Option.noConfusion h
                  · rename_i s4 seen4 t4 heq4
                    obtain ⟨hg2, hl2⟩ := ihg _ hg _ _ _ _ _ heq2
                    obtain ⟨hg4, hl4⟩ := ihg _ (gasReached_link hg hg2 hl2 _ _) _ _ _ _ _ heq4
                    obtain ⟨rfl, rfl, rfl⟩ := someTriple_inj h
                    rw [link_gas] at hg4
                    rw [link_lim] at hl4
                    exact ⟨by rw [link_gas, hg4, hg2], by rw [link_lim, hl4, hl2]⟩
              · split at h
                · -- Dp0/Dp1
                  split at h
                  · exact Option.noConfusion h
                  · rename_i s2 seen2 t2 heq2
                    obtain ⟨hg2, hl2⟩ := ihg _ hg _ _ _ _ _ heq2
                    obtain ⟨rfl, rfl, rfl⟩ := someTriple_inj h
                    exact ⟨by rw [link_gas, hg2], by rw [link_lim, hl2]⟩
                · split at h
                  · -- Cal/Ctr
                    split at h
                    · exact Option.noConfusion h
                    · rename_i s2 seen2 heq2
                      obtain ⟨hg2, hl2⟩ := iha _ hg _ _ _ _ _ _ heq2
                      obtain ⟨rfl, rfl, rfl⟩ := someTriple_inj h
                      exact ⟨hg2, hl2⟩
                  · obtain ⟨rfl, rfl, rfl⟩ := someTriple_inj h
                    exact ⟨rfl, rfl⟩
    · intro s hg seen term i k s' seen' h
      rcases k with _ | k
      · simp only [normalArgs] at h
        obtain ⟨rfl, rfl⟩ := someStatePair_inj h
        exact ⟨rfl, rfl⟩
      · simp only [normalArgs] at h
        split at h
        · exact Option.noConfusion h
        · rename_i s1 seen1 t1 heq
          obtain ⟨hg1, hl1⟩ := ihg _ hg _ _ _ _ _ heq
          obtain ⟨hg2, hl2⟩ := iha _ (gasReached_link hg hg1 hl1 _ _) _ _ _ _ _ _ h
          rw [link_gas] at hg2
          rw [link_lim] at hl2
          exact ⟨by rw [hg2, hg1], by rw [hl2, hl1]⟩

theorem normal_gas_mono (f : Nat) (s : State) (host : Nat) (s' : State) (t : Nat)
    (h : normal f s host = some (s', t)) : s.gas ≤ s'.gas ∧ s'.lim = s.lim := by
  unfold normal at h
  split at h
  · exact Option.noConfusion h
  · rename_i s1 seen1 t1 heq
    obtain ⟨hg1, hl1⟩ := (normal_mono_pair f).1 _ _ _ _ _ _ heq
    obtain ⟨rfl, rfl⟩ := somePair_inj h
    exact ⟨hg1, hl1⟩

theorem normal_stuck (f : Nat) (s : State) (hg : gasReached s = true)
    (host : Nat) (s' : State) (t : Nat) (h : normal f s host = some (s', t)) :
    s'.gas = s.gas ∧ s'.lim = s.lim := by
  unfold normal at h
  split at h
  · exact Option.noConfusion h
  · rename_i s1 seen1 t1 heq
    obtain ⟨hg1, hl1⟩ := (normal_stuck_pair f).1 _ hg _ _ _ _ _ heq
    obtain ⟨rfl, rfl⟩ := somePair_inj h
    exact ⟨hg1, hl1⟩

/-! ### Claim theorems -/

/-- Claim C9: `free(p, n)` always zeroes the `n` cells starting at `p`;
for `n > 3` it pushes `p` onto no free list, and a positive-size `alloc`
only ever returns either the heap tail or a member of the matching size
bucket — so positions below the heap tail that sit in no bucket are
never handed out again.  For `n ≤ 3` the position goes to the matching
bucket and the next same-size `alloc` returns exactly `p`. -/
theorem free_alloc_reclaim :
    (∀ (s : State) (p n : Nat), 3 < n →
      ((free s p n).re0 = s.re0 ∧ (free s p n).re1 = s.re1 ∧
       (free s p n).re2 = s.re2 ∧ (free s p n).re3 = s.re3) ∧
      (∀ q, memGet (free s p n) q = if p ≤ q ∧ q < p + n then 0 else memGet s q))
    ∧ (∀ (s : State) (p : Nat),
        (free s p 0).re0 = p :: s.re0 ∧ (free s p 1).re1 = p :: s.re1 ∧
        (free s p 2).re2 = p :: s.re2 ∧ (free s p 3).re3 = p :: s.re3)
    ∧ (∀ (s : State) (p : Nat),
        (alloc (free s p 0) 0).1 = p ∧ (alloc (free s p 1) 1).1 = p ∧
        (alloc (free s p 2) 2).1 = p ∧ (alloc (free s p 3) 3).1 = p)
    ∧ (∀ (s : State) (n q : Nat), 0 < n → q < s.mem.length →
        ¬ q ∈ s.re1 → ¬ q ∈ s.re2 → ¬ q ∈ s.re3 → (alloc s n).1 ≠ q) := by
  refine ⟨?_, ?_, ?_, ?_⟩
  · intro s p n hn
    rcases n with _ | _ | _ | _ | n
    · exact absurd hn (by decide)
    · exact absurd hn (by decide)
    · exact absurd hn (by decide)
    · exact absurd hn (by decide)
    · obtain ⟨-, -, h0, h1, h2, h3⟩ := zeroCells_fields (n + 4) s p
      exact ⟨⟨h0, h1, h2, h3⟩, fun q => free_memGet s p (n + 4) q⟩
  · intro s p
    obtain ⟨-, -, a0, -, -, -⟩ := zeroCells_fields 0 s p
    obtain ⟨-, -, -, b1, -, -⟩ := zeroCells_fields 1 s p
    obtain ⟨-, -, -, -, c2, -⟩ := zeroCells_fields 2 s p
    obtain ⟨-, -, -, -, -, d3⟩ := zeroCells_fields 3 s p
    refine ⟨?_, ?_, ?_, ?_⟩
    · show p :: (zeroCells s p 0).re0 = p :: s.re0
      rw [a0]
    · show p :: (zeroCells s p 1).re1 = p :: s.re1
      rw [b1]
    · show p :: (zeroCells s p 2).re2 = p :: s.re2
      rw [c2]
    · show p :: (zeroCells s p 3).re3 = p :: s.re3
      rw [d3]
  · intro s p
    refine ⟨?_, ?_, ?_, ?_⟩
    · have h : (free s p 0).re0 = p :: (zeroCells s p 0).re0 := rfl
      simp [alloc, h]
    · have h : (free s p 1).re1 = p :: (zeroCells s p 1).re1 := rfl
      simp [alloc, h]
    · have h : (free s p 2).re2 = p :: (zeroCells s p 2).re2 := rfl
      simp [alloc, h]
    · have h : (free s p 3).re3 = p :: (zeroCells s p 3).re3 := rfl
      simp [alloc, h]
  · intro s n q hn hq h1 h2 h3
    rcases n with _ | _ | _ | _ | n
    · exact absurd hn (by decide)
    · rcases hre : s.re1 with _ | ⟨a, rest⟩
      · simp [alloc, hre]; omega
      · simp only [alloc, hre]
        intro hEq
        exact h1 (by rw [hre, hEq]; exact List.mem_cons_self q rest)
    · rcases hre : s.re2 with _ | ⟨a, rest⟩
      · simp [alloc, hre]; omega
      · simp only [alloc, hre]
        intro hEq
        exact h2 (by rw [hre, hEq]; exact List.mem_cons_self q rest)
    · rcases hre : s.re3 with _ | ⟨a, rest⟩
      · simp [alloc, hre]; omega
      · simp only [alloc, hre]
        intro hEq
        exact h3 (by rw [hre, hEq]; exact List.mem_cons_self q rest)
    · simp [alloc]; omega

/-- Claim C10: with an empty size-0 free list `alloc(0)` returns
position 0 (the root cell) rather than the heap tail, leaving the state
unchanged; for `n ∈ {1,2,3}` with an empty size-`n` bucket, `alloc(n)`
appends `n` zeroed cells and returns the old heap length. -/
theorem alloc_zero_root_and_bump :
    (∀ (s : State), s.re0 = [] → alloc s 0 = (0, s))
    ∧ (∀ (s : State) (n : Nat),
        ((n = 1 ∧ s.re1 = []) ∨ (n = 2 ∧ s.re2 = []) ∨ (n = 3 ∧ s.re3 = [])) →
        (alloc s n).1 = s.mem.length ∧
        (alloc s n).2.mem = s.mem ++ List.replicate n 0) := by
  constructor
  · intro s h
    simp [alloc, h]
  · intro s n hcase
    rcases hcase with ⟨rfl, hre⟩ | ⟨rfl, hre⟩ | ⟨rfl, hre⟩ <;>
      simp [alloc, hre, pushZeros_mem]

theorem free_alloc_reclaim_witness :
    3 < 4
    ∧ ((free initState 0 4).re0 = initState.re0 ∧ (free initState 0 4).re1 = initState.re1 ∧
       (free initState 0 4).re2 = initState.re2 ∧ (free initState 0 4).re3 = initState.re3)
    ∧ memGet (free initState 0 4) 1 = (if 0 ≤ 1 ∧ 1 < 0 + 4 then 0 else memGet initState 1)
    ∧ (alloc (free initState 5 2) 2).1 = 5
    ∧ (alloc wApp 1).1 ≠ 2 :=
  ⟨by decide,
   (free_alloc_reclaim.1 initState 0 4 (by decide)).1,
   (free_alloc_reclaim.1 initState 0 4 (by decide)).2 1,
   (free_alloc_reclaim.2.2.1 initState 5).2.2.1,
   free_alloc_reclaim.2.2.2 wApp 1 2 (by decide) (by decide) (by decide)
     (by decide) (by decide)⟩

theorem alloc_zero_root_and_bump_witness :
    initState.re0 = []
    ∧ alloc initState 0 = (0, initState)
    ∧ ((alloc wApp 3).1 = wApp.mem.length ∧
       (alloc wApp 3).2.mem = wApp.mem ++ List.replicate 3 0) :=
  ⟨rfl,
   alloc_zero_root_and_bump.1 initState rfl,
   alloc_zero_root_and_bump.2 wApp 3 (Or.inr (Or.inr ⟨rfl, rfl⟩))⟩

/-- Claim C1: when the term at `host` is a `Dp0`/`Dp1` projection and
its duplicator's expression reduces to a `Par`, the driver takes the
annihilating path exactly when the two colors (`ex0` fields) agree —
node positions play no role — continuing reduction at `host`; with
unequal colors it takes the commuting path and returns `MEM[host]`
without continuing.  The effects of the two paths are the bodies
`letParAnnRule` (substitute the Par components for the two binders,
install the entry projection's component at `host`, free the 3-cell
duplicator and the 2-cell Par) and `letParComPre`/`letParComTail`
(allocate two fresh Pars of the Par's color and two fresh duplicators
of the duplicator's color wired crosswise, substitute the fresh Pars
for the binders, install the matching Par at `host`, free the old
nodes). -/
theorem letPar_dispatch (f : Nat) (s s1 : State) (host expr : Nat)
    (hterm : get_tag (memGet s host) = DP0 ∨ get_tag (memGet s host) = DP1)
    (hred : reduce f s (get_loc (memGet s host) 2) = some (s1, expr))
    (hpar : get_tag expr = PAR)
    (hgas : gasReached s1 = false) :
    reduce (Nat.succ f) s host =
      (if get_ex0 (memGet s host) = get_ex0 expr then
        match letParAnnRule f s1 host (memGet s host) expr with
        | none => none
        | some s2 => reduce f s2 host
      else
        match letParComRule f s1 host (memGet s host) expr with
        | none => none
        | some s2 => some (s2, memGet s2 host)) := by
  have hAPP : ¬ get_tag (memGet s host) = APP := by
    rcases hterm with h | h <;> rw [h] <;> decide
  simp only [reduce]
  rw [if_neg hAPP, if_pos hterm, hred]
  simp only [hpar, hgas]
  rfl

theorem letPar_dispatch_witness :
    (get_tag (memGet wDup 0) = DP0 ∨ get_tag (memGet wDup 0) = DP1)
    ∧ reduce (Nat.succ 1) wDup 0 =
      (if get_ex0 (memGet wDup 0) = get_ex0 5242883 then
        match letParAnnRule 1 wDup 0 (memGet wDup 0) 5242883 with
        | none => none
        | some s2 => reduce 1 s2 0
      else
        match letParComRule 1 wDup 0 (memGet wDup 0) 5242883 with
        | none => none
        | some s2 => some (s2, memGet s2 0)) :=
  ⟨Or.inl (by decide),
   letPar_dispatch 1 wDup wDup 0 5242883 (Or.inl (by decide)) (by decide)
     (by decide) (by decide)⟩

/-- Claim C2: when the term at `host` is an `App` whose function slot
reduces to a `Lam`, the driver applies `appLamRule` (substitute the
argument through the binder back-link — collecting it when the binder
slot is `Nil` — install the body at `host`, free the 2-cell App and the
2-cell Lam) and continues reducing at `host`; the rule increments gas
by exactly one. -/
theorem appLam_dispatch (f : Nat) (s s1 : State) (host func : Nat)
    (happ : get_tag (memGet s host) = APP)
    (hred : reduce f s (get_loc (memGet s host) 0) = some (s1, func))
    (hlam : get_tag func = LAM)
    (hgas : gasReached s1 = false) :
    (reduce (Nat.succ f) s host =
      match appLamRule f s1 host (memGet s host) func with
      | none => none
      | some s2 => reduce f s2 host)
    ∧ (∀ s2, appLamRule f s1 host (memGet s host) func = some s2 →
        s2.gas = s1.gas + 1) := by
  constructor
  · simp only [reduce]
    rw [if_pos happ, hred]
    simp only [hlam, hgas]
    simp
  · intro s2 h2
    exact (appLamRule_gas _ _ _ _ _ _ h2).1

theorem appLam_dispatch_witness :
    get_tag (memGet wApp 0) = APP
    ∧ (reduce (Nat.succ 2) wApp 0 =
        match appLamRule 2 wApp 0 (memGet wApp 0) 3145729 with
        | none => none
        | some s2 => reduce 2 s2 0)
    ∧ ((appLamRule 2 wApp 0 (memGet wApp 0) 3145729).getD wApp).gas = wApp.gas + 1 :=
  ⟨by decide,
   (appLam_dispatch 2 wApp wApp 0 3145729 (by decide) (by decide) (by decide)
     (by decide)).1,
   (appLam_dispatch 2 wApp wApp 0 3145729 (by decide) (by decide) (by decide)
     (by decide)).2 _ (by decide)⟩

/-- Claim C3: once the gas counter has reached the limit, `reduce`
returns the current term with the heap and the counter unchanged — so
every subsequent rewrite call also returns the current term — and
`normal` returns cleanly with gas and limit unchanged, the limit still
reached. -/
theorem gas_limit_noop (s : State) (hg : gasReached s = true) :
    (∀ (f : Nat) (host : Nat) (s' : State) (t : Nat),
      reduce f s host = some (s', t) → s' = s ∧ t = memGet s host)
    ∧ (∀ (f : Nat) (host : Nat) (s' : State) (t : Nat),
      normal f s host = some (s', t) →
        s'.gas = s.gas ∧ s'.lim = s.lim ∧ gasReached s' = true) := by
  constructor
  · intro f host s' t h
    exact reduce_stuck f s hg host s' t h
  · intro f host s' t h
    obtain ⟨h1, h2⟩ := normal_stuck f s hg host s' t h
    refine ⟨h1, h2, ?_⟩
    rw [gasReached_congr s' s h1 h2]
    exact hg

theorem gas_limit_noop_witness :
    gasReached wGas = true
    ∧ (wGas = wGas ∧ (1048578 : Nat) = memGet wGas 0)
    ∧ (wGas.gas = wGas.gas ∧ wGas.lim = wGas.lim ∧ gasReached wGas = true) :=
  ⟨by decide,
   (gas_limit_noop wGas (by decide)).1 2 0 wGas 1048578 (by decide),
   (gas_limit_noop wGas (by decide)).2 3 0 wGas 1048578 (by decide)⟩

/-- Claim C4 is refuted by this concrete run: the surface term
`!0<x y> = &0<> y λs:s; x` — whose duplicator expression contains the
duplicator's own second projection — builds (via `read`) a heap that
satisfies back-edge integrity, yet after one legal annihilating
`reduce` step from the root the live root cell holds a `Dp1` whose
binder slot contains `0` (`Nil`), not `Lnk(0)`. -/
theorem backedge_cex :
    (read 200 initState inCyc).map (fun p => backEdgeOk p.1) = some true
    ∧ ((read 200 initState inCyc).bind (fun p => reduce 200 p.1 0)).map
        (fun q => (get_tag (memGet q.1 0),
          memGet q.1 (get_loc (memGet q.1 0) 1), backEdgeOk q.1))
      = some (DP1, 0, false)
    ∧ ptr LNK 0 0 0 ≠ 0 :=
  ⟨by decide, by decide, by decide⟩

/-- Claim C4 (amended): `link` establishes the back-edge bond on every
write of a variable-bearing pointer — after `link(pos, t)` with `t` a
`Var`/`Dp0` (resp. `Dp1`), the named binder slot holds `Lnk(pos)` —
but back-edge integrity is not an invariant of every reachable state:
the annihilating Let-Par rule can leave a live projection whose
duplicator has been freed when the duplicator's expression contains its
own other projection. -/
theorem link_establishes_backedge (s : State) (pos term : Nat) :
    (get_tag term = VAR ∨ get_tag term = DP0 →
      memGet (link s pos term) (get_loc term 0) = ptr LNK pos 0 0)
    ∧ (get_tag term = DP1 →
      memGet (link s pos term) (get_loc term 1) = ptr LNK pos 0 0) := by
  constructor
  · intro h
    simp only [link]
    rcases h with h | h
    · rw [if_pos h, memGet_memSet, if_pos rfl]
    · have hne : ¬ get_tag term = VAR := by rw [h]; decide
      rw [if_neg hne, if_pos h, memGet_memSet, if_pos rfl]
  · intro h
    simp only [link]
    have h1 : ¬ get_tag term = VAR := by rw [h]; decide
    have h2 : ¬ get_tag term = DP0 := by rw [h]; decide
    rw [if_neg h1, if_neg h2, if_pos h, memGet_memSet, if_pos rfl]

theorem link_establishes_backedge_witness :
    (get_tag (ptr VAR 1 0 0) = VAR ∨ get_tag (ptr VAR 1 0 0) = DP0)
    ∧ memGet (link wStuckApp 0 (ptr VAR 1 0 0)) (get_loc (ptr VAR 1 0 0) 0) = ptr LNK 0 0 0
    ∧ memGet (link wStuckApp 0 (ptr DP1 1 0 0)) (get_loc (ptr DP1 1 0 0) 1) = ptr LNK 0 0 0 :=
  ⟨Or.inl (by decide),
   (link_establishes_backedge wStuckApp 0 (ptr VAR 1 0 0)).1 (Or.inl (by decide)),
   (link_establishes_backedge wStuckApp 0 (ptr DP1 1 0 0)).2 (by decide)⟩

/-- Claim C5: the gas counter never decreases across any `reduce` or
`normal` call, and each of the six rewrite rules increments it by
exactly one per application. -/
theorem gas_monotone_and_unit_increments :
    (∀ (f : Nat) (s : State) (host : Nat) (s' : State) (t : Nat),
      reduce f s host = some (s', t) → s.gas ≤ s'.gas)
    ∧ (∀ (f : Nat) (s : State) (host : Nat) (s' : State) (t : Nat),
      normal f s host = some (s', t) → s.gas ≤ s'.gas)
    ∧ (∀ (f : Nat) (s : State) (host term func : Nat) (s2 : State),
      appLamRule f s host term func = some s2 → s2.gas = s.gas + 1)
    ∧ (∀ (s : State) (host term func : Nat),
      (appParRule s host term func).gas = s.gas + 1)
    ∧ (∀ (f : Nat) (s : State) (host term expr : Nat) (s2 : State),
      letLamRule f s host term expr = some s2 → s2.gas = s.gas + 1)
    ∧ (∀ (f : Nat) (s : State) (host term expr : Nat) (s2 : State),
      letParAnnRule f s host term expr = some s2 → s2.gas = s.gas + 1)
    ∧ (∀ (f : Nat) (s : State) (host term expr : Nat) (s2 : State),
      letParComRule f s host term expr = some s2 → s2.gas = s.gas + 1)
    ∧ (∀ (f : Nat) (s : State) (host term expr : Nat) (s2 : State),
      letCtrRule f s host term expr = some s2 → s2.gas = s.gas + 1) :=
  ⟨fun f s host s' t h => (reduce_gas_mono f s host s' t h).1,
   fun f s host s' t h => (normal_gas_mono f s host s' t h).1,
   fun f s host term func s2 h => (appLamRule_gas f s host term func s2 h).1,
   fun s host term func => (appParRule_gas s host term func).1,
   fun f s host term expr s2 h => (letLamRule_gas f s host term expr s2 h).1,
   fun f s host term expr s2 h => (letParAnnRule_gas f s host term expr s2 h).1,
   fun f s host term expr s2 h => (letParComRule_gas f s host term expr s2 h).1,
   fun f s host term expr s2 h => (letCtrRule_gas f s host term expr s2 h).1⟩

theorem gas_monotone_and_unit_increments_witness :
    wStuckApp.gas ≤ ((reduce 2 wStuckApp 0).getD (wStuckApp, 0)).1.gas
    ∧ wStuckApp.gas ≤ ((normal 3 wStuckApp 0).getD (wStuckApp, 0)).1.gas
    ∧ ((appLamRule 2 wApp 0 1048578 3145729).getD wApp).gas = wApp.gas + 1
    ∧ (appParRule wApp 0 1048578 3145729).gas = wApp.gas + 1
    ∧ ((letLamRule 10 wDup 0 1048580 5242883).getD wDup).gas = wDup.gas + 1
    ∧ ((letParAnnRule 10 wDup 0 1048580 5242883).getD wDup).gas = wDup.gas + 1
    ∧ ((letParComRule 10 wDup 0 1048580 5242899).getD wDup).gas = wDup.gas + 1
    ∧ ((letCtrRule 10 wDup 0 1048580 5242920).getD wDup).gas = wDup.gas + 1 :=
  ⟨gas_monotone_and_unit_increments.1 2 wStuckApp 0
     ((reduce 2 wStuckApp 0).getD (wStuckApp, 0)).1
     ((reduce 2 wStuckApp 0).getD (wStuckApp, 0)).2 (by decide),
   gas_monotone_and_unit_increments.2.1 3 wStuckApp 0
     ((normal 3 wStuckApp 0).getD (wStuckApp, 0)).1
     ((normal 3 wStuckApp 0).getD (wStuckApp, 0)).2 (by decide),
   gas_monotone_and_unit_increments.2.2.1 2 wApp 0 1048578 3145729 _ (by decide),
   gas_monotone_and_unit_increments.2.2.2.1 wApp 0 1048578 3145729,
   gas_monotone_and_unit_increments.2.2.2.2.1 10 wDup 0 1048580 5242883 _ (by decide),
   gas_monotone_and_unit_increments.2.2.2.2.2.1 10 wDup 0 1048580 5242883 _ (by decide),
   gas_monotone_and_unit_increments.2.2.2.2.2.2.1 10 wDup 0 1048580 5242899 _ (by decide),
   gas_monotone_and_unit_increments.2.2.2.2.2.2.2 10 wDup 0 1048580 5242920 _ (by decide)⟩

/-- Claim C6 is refuted by this concrete run: normalizing the
scope-violation term `((t λz: z) (λt: λs: s λa: λb: a))` once yields
gas 1 with an application left at the root, and a second `normal` call
performs two further rewrites (gas 3) and changes the result — the
first rewrite substituted a redex above the region the normalizer had
already visited. -/
theorem normal_not_idempotent_cex :
    ((read 200 initState inScope).bind (fun p => normal 200 p.1 0)).map
      (fun q => (q.1.gas, q.2)) = some (1, 1048578)
    ∧ (((read 200 initState inScope).bind (fun p => normal 200 p.1 0)).bind
        (fun q => normal 200 q.1 0)).map (fun q => (q.1.gas, q.2))
      = some (3, 5242881) :=
  ⟨by decide, by decide⟩

/-- Claim C6 (amended): `normal` is idempotent at the scope-violation
fixpoint — whenever a pass returns the state unchanged, running it
again returns the same normal form and increments gas by zero.  In
general a second pass may rewrite further (see the refutation). -/
theorem normal_idempotent_at_fixpoint (f : Nat) (s s' : State) (host t : Nat)
    (h : normal f s host = some (s', t)) (hfix : s' = s) :
    normal f s' host = some (s', t) ∧ s'.gas = s.gas := by
  subst hfix
  exact ⟨h, rfl⟩

theorem normal_idempotent_at_fixpoint_witness :
    normal 50 wId 0 = some (wId, 1048577) ∧ wId.gas = wId.gas :=
  normal_idempotent_at_fixpoint 50 wId wId 0 1048577 (by decide) rfl

/-- Claim C7: an `App` whose function slot reduces to anything other
than `Lam`/`Par`, and a `Dp0`/`Dp1` whose expression slot reduces to
anything other than `Lam`/`Par`/`Ctr`, are no-ops for the driver: it
returns the term pointer unchanged with the state exactly as the inner
reduction left it (no gas increment for this redex). -/
theorem whnf_noop_dispatch :
    (∀ (f : Nat) (s s1 : State) (host func : Nat),
      get_tag (memGet s host) = APP →
      reduce f s (get_loc (memGet s host) 0) = some (s1, func) →
      ¬ get_tag func = LAM → ¬ get_tag func = PAR →
      reduce (Nat.succ f) s host = some (s1, memGet s host))
    ∧ (∀ (f : Nat) (s s1 : State) (host expr : Nat),
      (get_tag (memGet s host) = DP0 ∨ get_tag (memGet s host) = DP1) →
      reduce f s (get_loc (memGet s host) 2) = some (s1, expr) →
      ¬ get_tag expr = LAM → ¬ get_tag expr = PAR → ¬ get_tag expr = CTR →
      reduce (Nat.succ f) s host = some (s1, memGet s host)) := by
  constructor
  · intro f s s1 host func happ hred hL hP
    simp only [reduce]
    rw [if_pos happ, hred]
    simp only [if_neg hL, if_neg hP]
  · intro f s s1 host expr hterm hred hL hP hC
    have hAPP : ¬ get_tag (memGet s host) = APP := by
      rcases hterm with h | h <;> rw [h] <;> decide
    simp only [reduce]
    rw [if_neg hAPP, if_pos hterm, hred]
    simp only [if_neg hL, if_neg hP, if_neg hC]

theorem whnf_noop_dispatch_witness :
    get_tag (memGet wStuckApp 0) = APP
    ∧ reduce (Nat.succ 1) wStuckApp 0 = some (wStuckApp, memGet wStuckApp 0)
    ∧ reduce (Nat.succ 1) wStuckDup 0 = some (wStuckDup, memGet wStuckDup 0) :=
  ⟨by decide,
   whnf_noop_dispatch.1 1 wStuckApp wStuckApp 0 0 (by decide) (by decide)
     (by decide) (by decide),
   whnf_noop_dispatch.2 1 wStuckDup wStuckDup 0 0 (Or.inl (by decide)) (by decide)
     (by decide) (by decide) (by decide)⟩

/-- Claim C8 (scenario S1): building the graph for
`(λx: x λa: λb: a)` with `read` and fully normalizing from the root
yields gas exactly 1 and a head that is a `Lam` whose body is a `Lam`
whose body is a `Var` bound by the outer lambda. -/
theorem scenario_s1 :
    ((read 200 initState inS1).bind (fun p => normal 200 p.1 0)).map
      (fun q => (q.1.gas, get_tag q.2,
        get_tag (memGet q.1 (get_loc q.2 1)),
        get_tag (memGet q.1 (get_loc (memGet q.1 (get_loc q.2 1)) 1)),
        get_pos (memGet q.1 (get_loc (memGet q.1 (get_loc q.2 1)) 1)) == get_pos q.2))
      = some (1, LAM, LAM, VAR, true) := by
  decide

end UC
